import Mathlib

/-!
Shallow embedding of the EuroEval label-resolution and metric-aggregation core
(`src/euroeval/task_utils/sequence_classification.py`), together with theorems
settling the specification claims about it.

Conventions used throughout:
* Python strings are Lean `String`s; `str.lower()` is modelled by `pyLowerStr`,
  restricted to ASCII letters plus the accented letters named in the label
  alphabet regex (full Unicode case mapping is out of scope for these labels).
* Python dicts are modelled as association lists of their insertion items;
  a lookup in a dict built from an item list takes the *last* matching item,
  mirroring later-items-override-earlier dict construction.
* Python `set` values are modelled by order-deduplicated lists: cardinality and
  membership agree with the set, while the element returned by `set.pop()` is
  supplied by an explicit `pick` function, constrained only to return a member
  (CPython's pop order depends on randomized string hashing).
* Python floats are rationals tagged with a NaN marker (`PyFloat`).
* Operations that can raise return `Except PyErr` / `Option`.
-/

namespace EuroEval

/-- Python `float` values, as far as this core inspects them: a numeric value
or the not-a-number marker. -/
inductive PyFloat where
  | num (q : ℚ)
  | nan
  deriving DecidableEq

/-- whether the value is NaN. -/
def PyFloat.isNan : PyFloat → Bool
  | .nan => true
  | .num _ => false

/-- Lower-casing table for `str.lower()`, restricted to ASCII `A`-`Z` plus the
uppercase forms of the accented letters in the label alphabet `[a-zæøåüöä]`. -/
def lowerPairs : List (Char × Char) :=
  [('A', 'a'), ('B', 'b'), ('C', 'c'), ('D', 'd'), ('E', 'e'), ('F', 'f'),
   ('G', 'g'), ('H', 'h'), ('I', 'i'), ('J', 'j'), ('K', 'k'), ('L', 'l'),
   ('M', 'm'), ('N', 'n'), ('O', 'o'), ('P', 'p'), ('Q', 'q'), ('R', 'r'),
   ('S', 's'), ('T', 't'), ('U', 'u'), ('V', 'v'), ('W', 'w'), ('X', 'x'),
   ('Y', 'y'), ('Z', 'z'), ('Æ', 'æ'), ('Ø', 'ø'), ('Å', 'å'), ('Ü', 'ü'),
   ('Ö', 'ö'), ('Ä', 'ä')]

/-- Model of `str.lower()` on a single character (see `lowerPairs`). -/
def pyLowerChar (c : Char) : Char :=
  ((lowerPairs.find? (fun p => p.1 = c)).map Prod.snd).getD c

/-- Model of `str.lower()` on a string. -/
def pyLowerStr (s : String) : String :=
  ⟨s.data.map pyLowerChar⟩

/-- membership in the label alphabet character class `[a-zæøåüöä]`. -/
def isLabelChar (c : Char) : Bool :=
  (97 ≤ c.toNat && c.toNat ≤ 122) || c = 'æ' || c = 'ø' || c = 'å' ||
    c = 'ü' || c = 'ö' || c = 'ä'

/-- Stripping step `re.sub(r"^[^a-zæøåüöä]+|[^a-zæøåüöä]+$", "", s)`: remove
every leading and trailing character outside the label alphabet. -/
def stripNonLabel (l : List Char) : List Char :=
  ((l.dropWhile (fun c => !isLabelChar c)).reverse.dropWhile
    (fun c => !isLabelChar c)).reverse

/-- token cleaning from `get_closest_logprobs_labels`: lower-case, then strip
leading/trailing characters outside the label alphabet. -/
def cleanLabel (s : String) : String :=
  ⟨stripNonLabel (pyLowerStr s).data⟩

/-- The `DatasetConfig` data as consumed by this core: `id2label` is the ordered value
list of the id-to-English-label dict (position = numeric id), and
`promptLabelMapping` is the English-to-localized-label dict as its item list. -/
structure DatasetConfig where
  id2label : List String
  promptLabelMapping : List (String × String)
  deriving DecidableEq

/-- lookup in a dict built from an item list: the last matching item wins,
as in Python dict construction. -/
def dictLastGet? (items : List (String × String)) (k : String) : Option String :=
  (items.reverse.find? (fun p => p.1 = k)).map Prod.snd

/-- the inverted item list `{v: k for k, v in d.items()}` before dict
construction collapses duplicate keys. -/
def invMap (items : List (String × String)) : List (String × String) :=
  items.map (fun p => (p.2, p.1))

/-- Lookup in `label2id = \x7blabel: idx for idx, label in id2label.items()\x7d`:
the numeric id of a label string (last occurrence wins, as in the dict
comprehension). -/
def label2id? (id2label : List String) (s : String) : Option Int :=
  (id2label.enum.reverse.find? (fun p => p.2 = s)).map (fun p => Int.ofNat p.1)

/-- Python `english2local.get(k, k)` where `english2local = prompt_label_mapping`. -/
def english2localGet (cfg : DatasetConfig) (k : String) : String :=
  (dictLastGet? cfg.promptLabelMapping k).getD k

/-- The list `local_labels = [english2local[lbl].lower() for lbl in english_labels]`.
Python raises `KeyError` when an English label is missing from the mapping;
the data-model invariant guarantees presence, modelled with the label itself
as the lookup default. -/
def localLabels (cfg : DatasetConfig) : List String :=
  cfg.id2label.map (fun lbl =>
    pyLowerStr ((dictLastGet? cfg.promptLabelMapping lbl).getD lbl))

/-- The list `candidate_labels = local_labels + english_labels`: the candidate universe
of the logprob resolver. -/
def candidateLabels (cfg : DatasetConfig) : List String :=
  localLabels cfg ++ cfg.id2label

/-- order-preserving deduplication (first occurrence kept); used to model a
Python set comprehension as a list whose length is the set's cardinality. -/
def dedupFirst (l : List String) : List String :=
  l.foldl (fun acc a => if a ∈ acc then acc else acc ++ [a]) []

/-- Python `s.startswith(g)`, computed on the character lists. -/
def strStartsWith (s g : String) : Bool :=
  g.data.isPrefixOf s.data

/-- the set `{english2local.get(c, c) | c in candidate_labels if
c.startswith(g)}` built for a probe string `g`, as its deduplicated list. -/
def matchSet (cfg : DatasetConfig) (g : String) : List String :=
  dedupFirst
    (((candidateLabels cfg).filter (fun c => strStartsWith c g)).map
      (english2localGet cfg))

/-- a valid model of `set.pop()`: any function returning a member of every
nonempty list. -/
def PickValid (pick : List String → String) : Prop :=
  ∀ l : List String, l ≠ [] → pick l ∈ l

/-- the inner loop of `get_closest_logprobs_labels` over one generation step's
cleaned ranked tokens, carrying `output_label` and
`previously_generated_labels` (the running index is the enumerate counter
`label_idx`).  A unique match returns immediately (the `break`); an ambiguous
match at index 0 pushes the probe onto the accumulator; an ambiguous match at
a later index overwrites `output_label` with an arbitrary popped member and
the loop continues; no match leaves the state unchanged. -/
def stepLoop (cfg : DatasetConfig) (pick : List String → String) :
    List String → Nat → Option String → List String → Option String
  | [], _, out, _ => out
  | g :: rest, idx, out, prev =>
    let g' := String.join prev ++ g
    let ms := matchSet cfg g'
    if ms.length = 1 then some (ms.headD "")
    else if 1 < ms.length then
      if idx = 0 then stepLoop cfg pick rest (idx + 1) out (prev ++ [g'])
      else stepLoop cfg pick rest (idx + 1) (some (pick ms)) prev
    else stepLoop cfg pick rest (idx + 1) out prev

/-- the cleaned, nonempty tokens of one generation step's ranked
`(token, logprob)` list (the logprob values are never read). -/
def cleanedTokens (step : List (String × PyFloat)) : List String :=
  (step.map (fun p => cleanLabel p.1)).filter (fun l => l ≠ "")

/-- the outer loop over a sample's generation steps: the first step whose
inner loop produces an `output_label` ends the sample with
`english2local.get(output_label, output_label)`; `none` means the loop fell
through to its `else` clause. -/
def sampleLoop (cfg : DatasetConfig) (pick : List String → String) :
    List (List (String × PyFloat)) → Option String
  | [] => none
  | step :: rest =>
    match stepLoop cfg pick (cleanedTokens step) 0 none [] with
    | some out => some (english2localGet cfg out)
    | none => sampleLoop cfg pick rest

/-- the two distinguishable diagnostics logged by the fallback branch. -/
inductive Diagnostic where
  | emptyOutput
  | noMatch
  deriving DecidableEq

/-- one sample's resolved label together with the diagnostic (if any) that the
fallback branch logs.  `candidate_labels[0]` raises `IndexError` on an empty
candidate universe; theorems assume `id2label` nonempty. -/
def resolveSample (cfg : DatasetConfig) (pick : List String → String)
    (sample : List (List (String × PyFloat))) : String × Option Diagnostic :=
  match sampleLoop cfg pick sample with
  | some out => (out, none)
  | none =>
    ((candidateLabels cfg).headD "",
      some (if sample = [] then Diagnostic.emptyOutput else Diagnostic.noMatch))

/-- Function `get_closest_logprobs_labels`: one resolved label per sample in
the batch. -/
def get_closest_logprobs_labels
    (generationLogprobs : List (List (List (String × PyFloat))))
    (cfg : DatasetConfig) (pick : List String → String) : List String :=
  generationLogprobs.map (fun sample => (resolveSample cfg pick sample).1)

/-- a prediction or reference entry that is already a class label: a numeric
id or a label string. -/
inductive LabelElem where
  | lint (n : Int)
  | lstr (s : String)
  deriving DecidableEq

/-- the model outputs accepted by `compute_metrics`: either a batch of
per-class float score rows, or a batch of already-resolved labels. -/
inductive Preds where
  | scores (rows : List (List PyFloat))
  | labels (elems : List LabelElem)
  deriving DecidableEq

/-- the exceptions this engine can raise: numpy's `ValueError` (arg-max over
an empty axis), the `InvalidBenchmark` raised on NaN output, and `KeyError`
from a failed label lookup. -/
inductive PyErr where
  | valueError
  | nanError
  | keyError (k : String)
  deriving DecidableEq

/-- the value an external metric computation yields under its configured
result key: a scalar, or one score per class. -/
inductive MetricVal where
  | scalar (q : ℚ)
  | list (qs : List ℚ)
  deriving DecidableEq

/-- one entry of `dataset_config.task.metrics`.  Its `huggingface_id`,
`results_key` and `compute_kwargs` fields are consumed only by the external
metric library, which is modelled as a function from the config; only the
name is inspected by this engine (it keys the loaded-metrics dict and the
results dict). -/
structure MetricCfg where
  name : String
  deriving DecidableEq

/-- whether the model output is `Except.ok`. -/
def isOkE {ε α : Type} : Except ε α → Bool
  | .ok _ => true
  | .error _ => false

/-- numpy `argmax` over a 1-D float row: the first NaN's index when a NaN is
present, otherwise the first index attaining the maximum; `none` models the
`ValueError` numpy raises on an empty row. -/
def npArgmaxGo : List PyFloat → Nat → Nat → PyFloat → Nat
  | [], _, best, _ => best
  | v :: rest, i, best, bv =>
    if bv.isNan then npArgmaxGo rest (i + 1) best bv
    else if v.isNan then npArgmaxGo rest (i + 1) i v
    else
      match v, bv with
      | .num a, .num b =>
        if b < a then npArgmaxGo rest (i + 1) i v
        else npArgmaxGo rest (i + 1) best bv
      | _, _ => npArgmaxGo rest (i + 1) best bv

/-- see `npArgmaxGo`. -/
def npArgmaxRow : List PyFloat → Option Nat
  | [] => none
  | v :: rest => some (npArgmaxGo rest 1 0 v)

/-- the result of lines 64-68 of `compute_metrics`: `np.asarray(model_outputs)`
has a float dtype exactly when the outputs are score rows or the empty list
(`np.asarray([])` is float-typed), and then `argmax(axis=-1)` is taken —
raising `ValueError` on an empty axis; otherwise the outputs pass through. -/
inductive PredStage where
  | fromArgmax (ids : List Int)
  | passthrough (elems : List LabelElem)

/-- see `PredStage`. -/
def dtypeStage : Preds → Except PyErr PredStage
  | .scores [] => .error .valueError
  | .scores rows =>
    (rows.mapM (fun row =>
      match npArgmaxRow row with
      | some i => Except.ok (Int.ofNat i)
      | none => Except.error PyErr.valueError)).map PredStage.fromArgmax
  | .labels [] => .error .valueError
  | .labels elems => .ok (.passthrough elems)

/-- Modelled from the spec: `raise_if_model_output_contains_nan_values` lives
in `euroeval.utils`, which is not among the sources here.  The spec requires
rejecting the call "if raw model output contains a not-a-number numeric value
anywhere"; label batches hold no numeric float values. -/
def containsNanValues : Preds → Bool
  | .scores rows => rows.any (fun row => row.any PyFloat.isNan)
  | .labels _ => false

/-- the body of the predictions comprehension (lines 77-84):
`label2id[prompt_label_to_label_mapping[pred.lower()]]` for strings, identity
for numeric entries; a failed dict lookup is Python's `KeyError`. -/
def normalizePredElem (cfg : DatasetConfig) : LabelElem → Except PyErr Int
  | .lint n => .ok n
  | .lstr s =>
    match dictLastGet? (invMap cfg.promptLabelMapping) (pyLowerStr s) with
    | none => .error (.keyError (pyLowerStr s))
    | some eng =>
      match label2id? cfg.id2label eng with
      | none => .error (.keyError eng)
      | some i => .ok i

/-- the body of the references comprehension (lines 86-88):
`label2id[label.lower()]` for strings — no localized-to-English step —
identity for numeric entries. -/
def normalizeRefElem (cfg : DatasetConfig) : LabelElem → Except PyErr Int
  | .lint n => .ok n
  | .lstr s =>
    match label2id? cfg.id2label (pyLowerStr s) with
    | none => .error (.keyError (pyLowerStr s))
    | some i => .ok i

/-- whether the prediction-side lookups of `normalizePredElem` succeed for an
entry (numeric entries need no lookup). -/
def predLookupOk (cfg : DatasetConfig) : LabelElem → Bool
  | .lint _ => true
  | .lstr s =>
    ((dictLastGet? (invMap cfg.promptLabelMapping) (pyLowerStr s)).bind
      (label2id? cfg.id2label)).isSome

/-- whether the reference-side lookup of `normalizeRefElem` succeeds for an
entry. -/
def refLookupOk (cfg : DatasetConfig) : LabelElem → Bool
  | .lint _ => true
  | .lstr s => (label2id? cfg.id2label (pyLowerStr s)).isSome

/-- Reduction `scores = sum(scores) / len(scores)` when the extracted result is a list,
else the scalar itself.  (Python would raise `ZeroDivisionError` on an empty
list; Lean's division by zero yields `0` — no claim touches that case.) -/
def reduceScores : MetricVal → ℚ
  | .scalar q => q
  | .list qs => qs.sum / qs.length

/-- Assignment `results[key] = value` on the results dict: replace an existing entry for
the key, else append. -/
def dictInsert (d : List (String × ℚ)) (k : String) (v : ℚ) :
    List (String × ℚ) :=
  if d.any (fun p => p.1 = k) then
    d.map (fun p => if p.1 = k then (k, v) else p)
  else d ++ [(k, v)]

/-- the metric loop (lines 90-106): for each configured metric invoke the
external computation; a `None` result is skipped, otherwise the extracted
score is reduced and stored under the metric's name. -/
def metricLoopGo (fns : MetricCfg → List Int → List Int → Option MetricVal)
    (preds refs : List Int) :
    List MetricCfg → List (String × ℚ) → List (String × ℚ)
  | [], results => results
  | m :: rest, results =>
    match fns m preds refs with
    | none => metricLoopGo fns preds refs rest results
    | some v =>
      metricLoopGo fns preds refs rest
        (dictInsert results m.name (reduceScores v))

/-- see `metricLoopGo`. -/
def metricLoop (mcfgs : List MetricCfg)
    (fns : MetricCfg → List Int → List Int → Option MetricVal)
    (preds refs : List Int) : List (String × ℚ) :=
  metricLoopGo fns preds refs mcfgs []

/-- Function `compute_metrics` from `sequence_classification.py`.  The tuple unwrapping
of line 50 and the loading of the external metric modules (lines 53-62) are
outside the model: the outputs are taken already unwrapped and the external
library is the `fns` parameter.  The remaining steps are in source order:
dtype dispatch and arg-max (64-68), the NaN rejection (71), the two
normalization comprehensions (73-88), the metric loop (90-106). -/
def compute_metrics (outs : Preds) (labels : List LabelElem)
    (cfg : DatasetConfig) (mcfgs : List MetricCfg)
    (fns : MetricCfg → List Int → List Int → Option MetricVal) :
    Except PyErr (List (String × ℚ)) :=
  match dtypeStage outs with
  | .error e => .error e
  | .ok stage =>
    if containsNanValues outs then .error .nanError
    else
      match
        (match stage with
         | .fromArgmax ids => Except.ok ids
         | .passthrough elems => elems.mapM (normalizePredElem cfg)) with
      | .error e => .error e
      | .ok preds =>
        match labels.mapM (normalizeRefElem cfg) with
        | .error e => .error e
        | .ok refs => .ok (metricLoop mcfgs fns preds refs)

/-- character-level Levenshtein distance (unit insert/delete/substitute
costs), as computed by `Levenshtein.distance`. -/
def lev : List Char → List Char → Nat
  | [], l2 => l2.length
  | l1, [] => l1.length
  | a :: as, b :: bs =>
    if a = b then lev as bs
    else 1 + min (lev (a :: as) bs) (min (lev as (b :: bs)) (lev as bs))
termination_by l1 l2 => l1.length + l2.length
decreasing_by all_goals simp_arith

/-- numpy `argmin` over a list: the first index attaining the minimum
(numpy raises on an empty array; the `0` default is unreachable under the
nonempty hypotheses of the theorems). -/
def npArgmin : List Nat → Nat
  | [] => 0
  | v :: rest =>
    if rest.all (fun w => v ≤ w) then 0 else npArgmin rest + 1

/-- The list `candidate_labels = [prompt_label_mapping[lbl] for lbl in
id2label.values()]` of `get_closest_word_edit_labels` (localized spelling,
not lower-cased here); a missing key raises `KeyError` in Python and is
modelled by the label itself as default. -/
def editCandidateLabels (cfg : DatasetConfig) : List String :=
  cfg.id2label.map (fun lbl => (dictLastGet? cfg.promptLabelMapping lbl).getD lbl)

/-- the per-string edit distances to every candidate, lower-casing both
sides. -/
def levDistances (cfg : DatasetConfig) (p : String) : List Nat :=
  (editCandidateLabels cfg).map (fun c => lev (pyLowerStr p).data (pyLowerStr c).data)

/-- the body of the loop of `get_closest_word_edit_labels`:
`candidate_labels[np.argmin(edit_distances)]`. -/
def closestLabel (cfg : DatasetConfig) (p : String) : String :=
  (editCandidateLabels cfg).getD (npArgmin (levDistances cfg p)) ""

/-- Function `get_closest_word_edit_labels`: nearest-edit-distance candidate
per generated sequence. -/
def get_closest_word_edit_labels (generatedSequences : List String)
    (cfg : DatasetConfig) : List String :=
  generatedSequences.map (closestLabel cfg)

/-! Helper lemmas shared by the claim theorems. -/

theorem str_empty_append (s : String) : "" ++ s = s := by
  cases s with
  | mk l => rfl

theorem str_join_singleton (s : String) : String.join [s] = s :=
  str_empty_append s

theorem pyLowerChar_idem (c : Char) :
    pyLowerChar (pyLowerChar c) = pyLowerChar c := by
  have htab : ∀ q ∈ lowerPairs, lowerPairs.find? (fun r => r.1 = q.2) = none := by
    decide
  cases h : lowerPairs.find? (fun p => p.1 = c) with
  | none =>
    have h1 : pyLowerChar c = c := by simp [pyLowerChar, h]
    rw [h1]
    exact h1
  | some p =>
    have hp := List.mem_of_find?_eq_some h
    have h1 : pyLowerChar c = p.2 := by simp [pyLowerChar, h]
    rw [h1]
    simp [pyLowerChar, htab p hp]

theorem pyLowerList_idem (l : List Char) :
    (l.map pyLowerChar).map pyLowerChar = l.map pyLowerChar := by
  induction l with
  | nil => rfl
  | cons a t ih => simp only [List.map_cons, ih, pyLowerChar_idem a]

theorem pyLowerStr_idem (s : String) : pyLowerStr (pyLowerStr s) = pyLowerStr s :=
  congrArg String.mk (pyLowerList_idem s.data)

theorem headD_mem (l : List String) (h : l ≠ []) : l.headD "" ∈ l := by
  cases l with
  | nil => exact absurd rfl h
  | cons a t => exact List.mem_cons_self a t

theorem getLastD_mem (l : List String) (h : l ≠ []) : l.getLastD "" ∈ l := by
  cases l with
  | nil => exact absurd rfl h
  | cons a t =>
    rw [List.getLastD_cons]
    exact List.getLastD_mem_cons t a

theorem mapM_except_ok {α β : Type} (f : α → Except PyErr β) (g : α → β) :
    ∀ l : List α, (∀ a ∈ l, f a = Except.ok (g a)) →
      l.mapM f = Except.ok (l.map g) := by
  intro l
  induction l with
  | nil => intro _; rfl
  | cons a t ih =>
    intro h
    rw [List.mapM_cons, h a (List.mem_cons_self a t),
      ih (fun b hb => h b (List.mem_cons_of_mem a hb))]
    rfl

theorem getD_map_str (f : String → Nat) :
    ∀ (l : List String) (j : Nat), j < l.length →
      (l.map f).getD j 0 = f (l.getD j "")
  | a :: t, 0, _ => rfl
  | a :: t, j + 1, h => getD_map_str f t j (by simpa using h)

theorem getD_mem_nat : ∀ (l : List Nat) (j : Nat), j < l.length → l.getD j 0 ∈ l
  | a :: t, 0, _ => List.mem_cons_self a t
  | a :: t, j + 1, h =>
    List.mem_cons_of_mem a (getD_mem_nat t j (by simpa using h))

theorem mem_getD_nat (l : List Nat) (w : Nat) (hw : w ∈ l) :
    ∃ j, j < l.length ∧ l.getD j 0 = w := by
  induction l with
  | nil => cases hw
  | cons a t ih =>
    rcases List.mem_cons.mp hw with h | h
    · exact ⟨0, by simp, by simp [h]⟩
    · obtain ⟨j, hj, he⟩ := ih h
      exact ⟨j + 1, by simpa using hj, by simpa using he⟩

theorem npArgmin_cons (v : Nat) (rest : List Nat) :
    npArgmin (v :: rest) =
      if rest.all (fun w => v ≤ w) then 0 else npArgmin rest + 1 := rfl

theorem npArgmin_lt_length : ∀ l : List Nat, l ≠ [] → npArgmin l < l.length := by
  intro l
  induction l with
  | nil => intro h; exact absurd rfl h
  | cons v rest ih =>
    intro _
    rw [npArgmin_cons]
    by_cases h : rest.all (fun w => v ≤ w) = true
    · simp [h]
    · rw [if_neg (by simpa using h)]
      have hrne : rest ≠ [] := by
        intro he; subst he; simp at h
      have := ih hrne
      simp only [List.length_cons]
      omega

theorem npArgmin_le : ∀ (l : List Nat) (j : Nat), j < l.length →
    l.getD (npArgmin l) 0 ≤ l.getD j 0 := by
  intro l
  induction l with
  | nil => intro j hj; simp at hj
  | cons v rest ih =>
    intro j hj
    rw [npArgmin_cons]
    by_cases h : rest.all (fun w => v ≤ w) = true
    · rw [if_pos (by simpa using h)]
      simp only [List.all_eq_true, decide_eq_true_eq] at h
      cases j with
      | zero => simp
      | succ k =>
        simp only [List.getD_cons_zero, List.getD_cons_succ]
        exact h _ (getD_mem_nat rest k (by simpa using hj))
    · rw [if_neg (by simpa using h)]
      simp only [List.all_eq_true, decide_eq_true_eq, not_forall] at h
      obtain ⟨w, hw, hvw⟩ := h
      have hwlt : w < v := Nat.lt_of_not_le hvw
      obtain ⟨j0, hj0, he0⟩ := mem_getD_nat rest w hw
      cases j with
      | zero =>
        simp only [List.getD_cons_zero, List.getD_cons_succ]
        calc rest.getD (npArgmin rest) 0 ≤ rest.getD j0 0 := ih j0 hj0
          _ = w := he0
          _ ≤ v := Nat.le_of_lt hwlt
      | succ k =>
        simp only [List.getD_cons_succ]
        exact ih k (by simpa using hj)

theorem npArgmin_first : ∀ (l : List Nat) (j : Nat), j < npArgmin l →
    l.getD (npArgmin l) 0 < l.getD j 0 := by
  intro l
  induction l with
  | nil => intro j hj; simp [npArgmin] at hj
  | cons v rest ih =>
    intro j hj
    rw [npArgmin_cons] at hj ⊢
    by_cases h : rest.all (fun w => v ≤ w) = true
    · rw [if_pos (by simpa using h)] at hj
      cases hj
    · rw [if_neg (by simpa using h)] at hj ⊢
      have h' := h
      simp only [List.all_eq_true, decide_eq_true_eq, not_forall] at h'
      obtain ⟨w, hw, hvw⟩ := h'
      have hwlt : w < v := Nat.lt_of_not_le hvw
      obtain ⟨j0, hj0, he0⟩ := mem_getD_nat rest w hw
      cases j with
      | zero =>
        simp only [List.getD_cons_zero, List.getD_cons_succ]
        calc rest.getD (npArgmin rest) 0 ≤ rest.getD j0 0 := npArgmin_le rest j0 hj0
          _ = w := he0
          _ < v := hwlt
      | succ k =>
        simp only [List.getD_cons_succ]
        exact ih k (by omega)

theorem find_map_replace (k : String) (v : ℚ) :
    ∀ d : List (String × ℚ), d.any (fun p => p.1 = k) = true →
      (d.map (fun p => if p.1 = k then (k, v) else p)).find?
        (fun p => p.1 = k) = some (k, v) := by
  intro d
  induction d with
  | nil => intro h; simp at h
  | cons p t ih =>
    intro h
    by_cases hpk : p.1 = k
    · simp only [List.map_cons, if_pos hpk]
      exact List.find?_cons_of_pos _ (by simp)
    · simp only [List.map_cons, if_neg hpk]
      rw [List.find?_cons_of_neg _ (by simpa using hpk)]
      refine ih ?_
      simpa [hpk] using h

theorem find_map_replace_other (k k' : String) (v : ℚ) (h : k ≠ k') :
    ∀ d : List (String × ℚ),
      (d.map (fun p => if p.1 = k then (k, v) else p)).find?
        (fun p => p.1 = k') = d.find? (fun p => p.1 = k') := by
  intro d
  induction d with
  | nil => rfl
  | cons p t ih =>
    by_cases hpk : p.1 = k
    · simp only [List.map_cons, if_pos hpk]
      rw [List.find?_cons_of_neg _ (by simpa using h),
        List.find?_cons_of_neg _ (by simp [hpk, h])]
      exact ih
    · simp only [List.map_cons, if_neg hpk]
      by_cases hpk' : p.1 = k'
      · rw [List.find?_cons_of_pos _ (by simpa using hpk'),
          List.find?_cons_of_pos _ (by simpa using hpk')]
      · rw [List.find?_cons_of_neg _ (by simpa using hpk'),
          List.find?_cons_of_neg _ (by simpa using hpk')]
        exact ih

theorem dictInsert_find_self (d : List (String × ℚ)) (k : String) (v : ℚ) :
    (dictInsert d k v).find? (fun p => p.1 = k) = some (k, v) := by
  unfold dictInsert
  by_cases h : d.any (fun p => p.1 = k) = true
  · rw [if_pos h]
    exact find_map_replace k v d h
  · rw [if_neg h, List.find?_append]
    have hnone : d.find? (fun p => p.1 = k) = none := by
      rw [List.find?_eq_none]
      intro x hx hc
      exact h (List.any_eq_true.mpr ⟨x, hx, hc⟩)
    rw [hnone]
    simp

theorem dictInsert_find_other (d : List (String × ℚ)) (k k' : String) (v : ℚ)
    (h : k ≠ k') :
    (dictInsert d k v).find? (fun p => p.1 = k') =
      d.find? (fun p => p.1 = k') := by
  unfold dictInsert
  by_cases hany : d.any (fun p => p.1 = k) = true
  · rw [if_pos hany]
    exact find_map_replace_other k k' v h d
  · rw [if_neg hany, List.find?_append]
    have : ([(k, v)].find? (fun p => p.1 = k')) = none := by
      simp [List.find?, h]
    rw [this]
    simp

theorem metricLoopGo_untouched
    (fns : MetricCfg → List Int → List Int → Option MetricVal)
    (preds refs : List Int) (k : String) :
    ∀ (cfgs : List MetricCfg) (acc : List (String × ℚ)),
      (∀ c ∈ cfgs, c.name ≠ k) →
      (metricLoopGo fns preds refs cfgs acc).find? (fun p => p.1 = k) =
        acc.find? (fun p => p.1 = k) := by
  intro cfgs
  induction cfgs with
  | nil => intro acc _; rfl
  | cons m rest ih =>
    intro acc h
    unfold metricLoopGo
    cases fns m preds refs with
    | none => exact ih acc (fun c hc => h c (List.mem_cons_of_mem m hc))
    | some v =>
      rw [ih _ (fun c hc => h c (List.mem_cons_of_mem m hc)),
        dictInsert_find_other _ _ _ _ (h m (List.mem_cons_self m rest))]

theorem metricLoopGo_skips
    (fns : MetricCfg → List Int → List Int → Option MetricVal)
    (preds refs : List Int) (m : MetricCfg) :
    ∀ (cfgs : List MetricCfg) (acc : List (String × ℚ)),
      m ∈ cfgs → (cfgs.map MetricCfg.name).Nodup →
      fns m preds refs = none →
      acc.find? (fun p => p.1 = m.name) = none →
      (metricLoopGo fns preds refs cfgs acc).find?
        (fun p => p.1 = m.name) = none := by
  intro cfgs
  induction cfgs with
  | nil => intro acc hm; cases hm
  | cons c rest ih =>
    intro acc hm hnd hfn hacc
    have hnd' : (rest.map MetricCfg.name).Nodup := (List.nodup_cons.mp hnd).2
    have hcnotin : c.name ∉ rest.map MetricCfg.name := (List.nodup_cons.mp hnd).1
    rcases List.mem_cons.mp hm with he | hm'
    · subst he
      unfold metricLoopGo
      rw [hfn]
      rw [metricLoopGo_untouched fns preds refs m.name rest acc ?_]
      · exact hacc
      · intro c' hc' hceq
        exact hcnotin (hceq ▸ List.mem_map_of_mem MetricCfg.name hc')
    · have hmname : c.name ≠ m.name := by
        intro he
        exact hcnotin (he ▸ List.mem_map_of_mem MetricCfg.name hm')
      unfold metricLoopGo
      cases fns c preds refs with
      | none => exact ih acc hm' hnd' hfn hacc
      | some v =>
        refine ih _ hm' hnd' hfn ?_
        rw [dictInsert_find_other _ _ _ _ hmname]
        exact hacc

theorem metricLoopGo_records
    (fns : MetricCfg → List Int → List Int → Option MetricVal)
    (preds refs : List Int) (m : MetricCfg) (v : MetricVal) :
    ∀ (cfgs : List MetricCfg) (acc : List (String × ℚ)),
      m ∈ cfgs → (cfgs.map MetricCfg.name).Nodup →
      fns m preds refs = some v →
      (metricLoopGo fns preds refs cfgs acc).find?
        (fun p => p.1 = m.name) = some (m.name, reduceScores v) := by
  intro cfgs
  induction cfgs with
  | nil => intro acc hm; cases hm
  | cons c rest ih =>
    intro acc hm hnd hfn
    have hnd' : (rest.map MetricCfg.name).Nodup := (List.nodup_cons.mp hnd).2
    have hcnotin : c.name ∉ rest.map MetricCfg.name := (List.nodup_cons.mp hnd).1
    rcases List.mem_cons.mp hm with he | hm'
    · subst he
      unfold metricLoopGo
      rw [hfn]
      rw [metricLoopGo_untouched fns preds refs m.name rest _ ?_]
      · exact dictInsert_find_self acc m.name (reduceScores v)
      · intro c' hc' hceq
        exact hcnotin (hceq ▸ List.mem_map_of_mem MetricCfg.name hc')
    · unfold metricLoopGo
      cases fns c preds refs with
      | none => exact ih acc hm' hnd' hfn
      | some w => exact ih _ hm' hnd' hfn

theorem sampleLoop_none (cfg : DatasetConfig) (pick : List String → String) :
    ∀ sample : List (List (String × PyFloat)),
      (∀ step ∈ sample, stepLoop cfg pick (cleanedTokens step) 0 none [] = none) →
      sampleLoop cfg pick sample = none := by
  intro sample
  induction sample with
  | nil => intro _; rfl
  | cons step rest ih =>
    intro h
    unfold sampleLoop
    rw [h step (List.mem_cons_self step rest)]
    exact ih (fun s hs => h s (List.mem_cons_of_mem step hs))

/-! Claim theorems. -/

/-- C10: for the empty input (zero examples: empty model-output sequence and
empty label sequence), `compute_metrics` raises rather than returning an empty
result mapping — the empty output list is coerced to a float-typed array, so
the floating-point branch is taken and the arg-max over the class axis fails
(`ValueError`), whichever encoding of the empty batch is used. -/
theorem c10_empty_input_raises (cfg : DatasetConfig) (mcfgs : List MetricCfg)
    (fns : MetricCfg → List Int → List Int → Option MetricVal) :
    compute_metrics (Preds.labels []) [] cfg mcfgs fns =
      Except.error PyErr.valueError ∧
    compute_metrics (Preds.scores []) [] cfg mcfgs fns =
      Except.error PyErr.valueError :=
  ⟨rfl, rfl⟩

/-- C6: whenever the numeric model output contains a NaN value anywhere,
`compute_metrics` raises before any metric is computed, for every metric
configuration and every external metric function; no NaN-containing output is
ever scored. -/
theorem c6_nan_rejected (outs : Preds) (refs : List LabelElem)
    (cfg : DatasetConfig) (mcfgs : List MetricCfg)
    (fns : MetricCfg → List Int → List Int → Option MetricVal)
    (h : containsNanValues outs = true) :
    isOkE (compute_metrics outs refs cfg mcfgs fns) = false := by
  unfold compute_metrics
  cases hd : dtypeStage outs with
  | error e => simp [hd, isOkE]
  | ok stage => simp [hd, h, isOkE]

/-- Witness for C6 at a concrete NaN-containing score batch. -/
theorem c6_nan_rejected_witness :
    containsNanValues (Preds.scores [[PyFloat.nan, PyFloat.num 1]]) = true ∧
    isOkE (compute_metrics (Preds.scores [[PyFloat.nan, PyFloat.num 1]]) []
      ⟨["pos"], [("pos", "positiv")]⟩ [⟨"acc"⟩]
      (fun _ _ _ => some (MetricVal.scalar 1))) = false :=
  ⟨rfl, c6_nan_rejected _ _ _ _ _ rfl⟩

/-- C2: `get_closest_logprobs_labels` returns exactly one label per input
example — the output length equals the number of examples — for every batch
and every set-pop behaviour; the nonempty-universe hypothesis is the
condition under which the Python function cannot raise (an empty candidate
universe would make the fallback `candidate_labels[0]` an `IndexError`). -/
theorem c2_output_length
    (generationLogprobs : List (List (List (String × PyFloat))))
    (cfg : DatasetConfig) (pick : List String → String)
    (h : cfg.id2label ≠ []) :
    (get_closest_logprobs_labels generationLogprobs cfg pick).length =
      generationLogprobs.length :=
  List.length_map _ _

/-- Witness for C2 on a two-example batch. -/
theorem c2_output_length_witness :
    ((⟨["pos"], [("pos", "positiv")]⟩ : DatasetConfig).id2label ≠ []) ∧
    (get_closest_logprobs_labels [[[("pos", PyFloat.num 0)]], []]
      ⟨["pos"], [("pos", "positiv")]⟩ (fun l => l.headD "")).length = 2 :=
  ⟨by decide, c2_output_length _ _ _ (by decide)⟩

/-- C4, counterexample: the constructed candidate list is not entirely
lower-cased — the English labels are appended as-is, so a config with a
capitalised English label yields a candidate differing from its own
lower-casing. -/
theorem c4_counterexample :
    ¬ ∀ s ∈ candidateLabels ⟨["Positive"], [("Positive", "Grøn")]⟩,
        pyLowerStr s = s := by
  decide

/-- C4, amended: the candidate universe is the localized labels followed by
the canonical English labels, where the localized group is lower-cased
(each of its elements equals its own lower-casing) while the English group is
taken verbatim. -/
theorem c4_amended (cfg : DatasetConfig) :
    candidateLabels cfg = localLabels cfg ++ cfg.id2label ∧
    ∀ s ∈ localLabels cfg, pyLowerStr s = s := by
  refine ⟨rfl, ?_⟩
  intro s hs
  simp only [localLabels, List.mem_map] at hs
  obtain ⟨lbl, _, rfl⟩ := hs
  exact pyLowerStr_idem _

/-- Witness for C4 at a concrete config. -/
theorem c4_amended_witness :
    candidateLabels ⟨["POS"], [("POS", "Pos")]⟩ =
      localLabels ⟨["POS"], [("POS", "Pos")]⟩ ++ ["POS"] ∧
    pyLowerStr "pos" = "pos" :=
  ⟨(c4_amended ⟨["POS"], [("POS", "Pos")]⟩).1,
    (c4_amended ⟨["POS"], [("POS", "Pos")]⟩).2 "pos" (by decide)⟩

/-- C9: a configured metric whose external computation returns no result is
omitted from the result mapping entirely (no zero or placeholder entry),
while a metric whose computation does return a result appears with its
reduced score — for metric lists with pairwise distinct names. -/
theorem c9_none_metric_omitted (mcfgs : List MetricCfg)
    (fns : MetricCfg → List Int → List Int → Option MetricVal)
    (preds refs : List Int)
    (hnd : (mcfgs.map MetricCfg.name).Nodup) :
    ∀ m ∈ mcfgs,
      (fns m preds refs = none →
        (metricLoop mcfgs fns preds refs).find? (fun p => p.1 = m.name) =
          none) ∧
      (∀ v, fns m preds refs = some v →
        (metricLoop mcfgs fns preds refs).find? (fun p => p.1 = m.name) =
          some (m.name, reduceScores v)) := by
  intro m hm
  constructor
  · intro hfn
    exact metricLoopGo_skips fns preds refs m mcfgs [] hm hnd hfn rfl
  · intro v hfn
    exact metricLoopGo_records fns preds refs m v mcfgs [] hm hnd hfn

/-- Witness for C9: one metric yielding no result is absent, the other is
present with its score. -/
theorem c9_none_metric_omitted_witness :
    (metricLoop [⟨"a"⟩, ⟨"b"⟩]
        (fun m _ _ => if m.name = "b" then some (MetricVal.scalar 2) else none)
        [] []).find? (fun p => p.1 = "a") = none ∧
    (metricLoop [⟨"a"⟩, ⟨"b"⟩]
        (fun m _ _ => if m.name = "b" then some (MetricVal.scalar 2) else none)
        [] []).find? (fun p => p.1 = "b") = some ("b", (2 : ℚ)) := by
  constructor
  · exact (c9_none_metric_omitted [⟨"a"⟩, ⟨"b"⟩] _ [] [] (by decide) ⟨"a"⟩
      (by decide)).1 rfl
  · exact (c9_none_metric_omitted [⟨"a"⟩, ⟨"b"⟩] _ [] [] (by decide) ⟨"b"⟩
      (by decide)).2 (MetricVal.scalar 2) rfl

/-- C7: when no cleaned generated token at any step yields a resolution
(including an empty token sequence), the resolver returns the first entry of
the candidate universe for that example, and the logged diagnostic
distinguishes the empty-output case from the no-candidate-matched case. -/
theorem c7_fallback_first_candidate (cfg : DatasetConfig)
    (pick : List String → String) (sample : List (List (String × PyFloat)))
    (h0 : cfg.id2label ≠ [])
    (h : ∀ step ∈ sample,
      stepLoop cfg pick (cleanedTokens step) 0 none [] = none) :
    candidateLabels cfg ≠ [] ∧
    resolveSample cfg pick sample =
      ((candidateLabels cfg).headD "",
        some (if sample = [] then Diagnostic.emptyOutput
          else Diagnostic.noMatch)) := by
  constructor
  · simp only [candidateLabels]
    intro hc
    rcases List.append_eq_nil.mp hc with ⟨h1, h2⟩
    exact h0 h2
  · unfold resolveSample
    rw [sampleLoop_none cfg pick sample h]

/-- Witness for C7: a sample whose only token cleans to the empty string
falls back with the no-match diagnostic, and an empty sample falls back with
the empty-output diagnostic. -/
theorem c7_fallback_first_candidate_witness :
    resolveSample ⟨["pos"], [("pos", "positiv")]⟩ (fun l => l.headD "")
      [[("123", PyFloat.num 0)]] = ("positiv", some Diagnostic.noMatch) ∧
    resolveSample ⟨["pos"], [("pos", "positiv")]⟩ (fun l => l.headD "") [] =
      ("positiv", some Diagnostic.emptyOutput) := by
  constructor
  · exact (c7_fallback_first_candidate _ _ _ (by decide) (by decide)).2
  · exact (c7_fallback_first_candidate _ _ _ (by decide) (by decide)).2

/-- C1, counterexample: the claim's scenario holds at this input — the top
token "ye" of step 0 prefixes more than one candidate and its concatenation
with step 1's top token "s" prefixes exactly the candidate "yes" — yet the
function returns "yellow": the accumulator is reset between generation steps
(it lives inside the per-step loop), so nothing is carried over and the
fallback to the first candidate fires. -/
theorem c1_counterexample :
    1 < (matchSet ⟨["YEL", "YES"], [("YEL", "yellow"), ("YES", "yes")]⟩
      "ye").length ∧
    matchSet ⟨["YEL", "YES"], [("YEL", "yellow"), ("YES", "yes")]⟩ "yes" =
      ["yes"] ∧
    get_closest_logprobs_labels [[[("ye", PyFloat.num 0)], [("s", PyFloat.num 0)]]]
      ⟨["YEL", "YES"], [("YEL", "yellow"), ("YES", "yes")]⟩ (fun l => l.headD "") =
      ["yellow"] ∧
    (["yellow"] : List String) ≠ ["yes"] := by
  refine ⟨by decide, by decide, by decide, by decide⟩

/-- C1, amended: the accumulation happens across the ranked tokens *within a
single generation step*, not across steps — when the rank-0 cleaned token of
a step matches several candidates and its concatenation with the rank-1
cleaned token of the same step matches exactly one, that unique candidate is
returned (mapped through `english2local.get`). -/
theorem c1_amended (cfg : DatasetConfig) (pick : List String → String)
    (t0 t1 : String) (x y : PyFloat) (c : String)
    (h0 : cleanLabel t0 ≠ "") (h1 : cleanLabel t1 ≠ "")
    (hm0 : 1 < (matchSet cfg (cleanLabel t0)).length)
    (hm1 : matchSet cfg (cleanLabel t0 ++ cleanLabel t1) = [c]) :
    get_closest_logprobs_labels [[[(t0, x), (t1, y)]]] cfg pick =
      [english2localGet cfg c] := by
  have e1 : cleanedTokens [(t0, x), (t1, y)] = [cleanLabel t0, cleanLabel t1] := by
    simp [cleanedTokens, h0, h1]
  have hne1 : (matchSet cfg (cleanLabel t0)).length ≠ 1 := by omega
  have j0 : String.join ([] : List String) ++ cleanLabel t0 = cleanLabel t0 :=
    str_empty_append _
  have j1 : String.join [cleanLabel t0] ++ cleanLabel t1 =
      cleanLabel t0 ++ cleanLabel t1 := by
    rw [str_join_singleton]
  have e2 : stepLoop cfg pick [cleanLabel t0, cleanLabel t1] 0 none [] =
      some c := by
    simp [stepLoop, j0, j1, hm1, hne1, hm0]
  have e3 : sampleLoop cfg pick [[(t0, x), (t1, y)]] =
      some (english2localGet cfg c) := by
    unfold sampleLoop
    rw [e1, e2]
  have e4 : resolveSample cfg pick [[(t0, x), (t1, y)]] =
      (english2localGet cfg c, none) := by
    unfold resolveSample
    rw [e3]
  simp [get_closest_logprobs_labels, e4]

/-- Witness for the amended C1 at the spec's own example, with both tokens in
one step: candidates yes/yellow, tokens "ye" then "s" resolve to "yes". -/
theorem c1_amended_witness :
    get_closest_logprobs_labels [[[("ye", PyFloat.num 0), ("s", PyFloat.num 0)]]]
      ⟨["YEL", "YES"], [("YEL", "yellow"), ("YES", "yes")]⟩ (fun l => l.headD "") =
      ["yes"] := by
  have h := c1_amended ⟨["YEL", "YES"], [("YEL", "yellow"), ("YES", "yes")]⟩
    (fun l => l.headD "") "ye" "s" (PyFloat.num 0) (PyFloat.num 0) "yes"
    (by decide) (by decide) (by decide) (by decide)
  exact h

/-- C3, counterexample: the ambiguous pick at a non-first token position is
`set.pop()`, whose result is an arbitrary member (hash-order dependent), not
the first match in candidate-universe order: popping the last member is a
valid set-pop behaviour, and then the emitted label "aac" differs from the
first match "aab". -/
theorem c3_counterexample :
    PickValid (fun l => l.getLastD "") ∧
    1 < (matchSet ⟨["AAB", "AAC"], [("AAB", "aab"), ("AAC", "aac")]⟩
      "aa").length ∧
    (matchSet ⟨["AAB", "AAC"], [("AAB", "aab"), ("AAC", "aac")]⟩ "aa").headD "" =
      "aab" ∧
    get_closest_logprobs_labels [[[("a", PyFloat.num 0), ("a", PyFloat.num 0)]]]
      ⟨["AAB", "AAC"], [("AAB", "aab"), ("AAC", "aac")]⟩ (fun l => l.getLastD "") =
      ["aac"] ∧
    ("aac" : String) ≠ "aab" := by
  refine ⟨fun l hl => getLastD_mem l hl, by decide, by decide, by decide, by decide⟩

/-- C3, amended: when several candidates match the accumulated probe at a
token position other than the first, the emitted label is an arbitrary popped
member of the match set (mapped through `english2local.get`) — some member,
with no guarantee about which one. -/
theorem c3_amended (cfg : DatasetConfig) (pick : List String → String)
    (t0 t1 : String) (x y : PyFloat)
    (hpick : PickValid pick)
    (h0 : cleanLabel t0 ≠ "") (h1 : cleanLabel t1 ≠ "")
    (hm0 : 1 < (matchSet cfg (cleanLabel t0)).length)
    (hm1 : 1 < (matchSet cfg (cleanLabel t0 ++ cleanLabel t1)).length) :
    get_closest_logprobs_labels [[[(t0, x), (t1, y)]]] cfg pick =
      [english2localGet cfg
        (pick (matchSet cfg (cleanLabel t0 ++ cleanLabel t1)))] ∧
    pick (matchSet cfg (cleanLabel t0 ++ cleanLabel t1)) ∈
      matchSet cfg (cleanLabel t0 ++ cleanLabel t1) := by
  have e1 : cleanedTokens [(t0, x), (t1, y)] = [cleanLabel t0, cleanLabel t1] := by
    simp [cleanedTokens, h0, h1]
  have hne1 : (matchSet cfg (cleanLabel t0)).length ≠ 1 := by omega
  have hne2 : (matchSet cfg (cleanLabel t0 ++ cleanLabel t1)).length ≠ 1 := by
    omega
  have j0 : String.join ([] : List String) ++ cleanLabel t0 = cleanLabel t0 :=
    str_empty_append _
  have j1 : String.join [cleanLabel t0] ++ cleanLabel t1 =
      cleanLabel t0 ++ cleanLabel t1 := by
    rw [str_join_singleton]
  have e2 : stepLoop cfg pick [cleanLabel t0, cleanLabel t1] 0 none [] =
      some (pick (matchSet cfg (cleanLabel t0 ++ cleanLabel t1))) := by
    simp [stepLoop, j0, j1, hne1, hm0, hne2, hm1]
  have e3 : sampleLoop cfg pick [[(t0, x), (t1, y)]] =
      some (english2localGet cfg
        (pick (matchSet cfg (cleanLabel t0 ++ cleanLabel t1)))) := by
    unfold sampleLoop
    rw [e1, e2]
  have e4 : resolveSample cfg pick [[(t0, x), (t1, y)]] =
      (english2localGet cfg
        (pick (matchSet cfg (cleanLabel t0 ++ cleanLabel t1))), none) := by
    unfold resolveSample
    rw [e3]
  constructor
  · simp [get_closest_logprobs_labels, e4]
  · refine hpick _ ?_
    intro he
    rw [he] at hm1
    simp at hm1

/-- Witness for the amended C3 with a head-popping set behaviour. -/
theorem c3_amended_witness :
    get_closest_logprobs_labels [[[("a", PyFloat.num 0), ("a", PyFloat.num 0)]]]
      ⟨["AAB", "AAC"], [("AAB", "aab"), ("AAC", "aac")]⟩ (fun l => l.headD "") =
      ["aab"] ∧
    ("aab" : String) ∈
      matchSet ⟨["AAB", "AAC"], [("AAB", "aab"), ("AAC", "aac")]⟩ "aa" := by
  have h := c3_amended ⟨["AAB", "AAC"], [("AAB", "aab"), ("AAC", "aac")]⟩
    (fun l => l.headD "") "a" "a" (PyFloat.num 0) (PyFloat.num 0)
    (fun l hl => headD_mem l hl) (by decide) (by decide) (by decide) (by decide)
  exact h

/-- C5, amended: on the success path, the metric computation is invoked with
string *predictions* normalized by lower-casing, then the localized-to-English
mapping, then the English-label-to-id mapping, but with string *references*
normalized by lower-casing and the English-label-to-id mapping only — no
localized-to-English step — while numeric entries pass through unchanged on
both sides. -/
theorem c5_amended (cfg : DatasetConfig) (mcfgs : List MetricCfg)
    (fns : MetricCfg → List Int → List Int → Option MetricVal)
    (elems refs : List LabelElem) (hne : elems ≠ [])
    (hp : ∀ e ∈ elems, predLookupOk cfg e = true)
    (hr : ∀ e ∈ refs, refLookupOk cfg e = true) :
    compute_metrics (Preds.labels elems) refs cfg mcfgs fns =
      Except.ok (metricLoop mcfgs fns
        (elems.map (fun e => match e with
          | .lint n => n
          | .lstr s => ((dictLastGet? (invMap cfg.promptLabelMapping)
              (pyLowerStr s)).bind (label2id? cfg.id2label)).getD 0))
        (refs.map (fun e => match e with
          | .lint n => n
          | .lstr s => (label2id? cfg.id2label (pyLowerStr s)).getD 0))) := by
  have hstage : dtypeStage (Preds.labels elems) =
      Except.ok (PredStage.passthrough elems) := by
    cases elems with
    | nil => exact absurd rfl hne
    | cons a t => rfl
  have hpred : elems.mapM (normalizePredElem cfg) =
      Except.ok (elems.map (fun e => match e with
        | .lint n => n
        | .lstr s => ((dictLastGet? (invMap cfg.promptLabelMapping)
            (pyLowerStr s)).bind (label2id? cfg.id2label)).getD 0)) := by
    apply mapM_except_ok
    intro e he
    have h := hp e he
    cases e with
    | lint n => rfl
    | lstr s =>
      simp only [predLookupOk] at h
      cases hd : dictLastGet? (invMap cfg.promptLabelMapping) (pyLowerStr s) with
      | none => rw [hd] at h; simp at h
      | some eng =>
        rw [hd] at h
        simp only [Option.some_bind] at h
        cases hi : label2id? cfg.id2label eng with
        | none => rw [hi] at h; simp at h
        | some i => simp [normalizePredElem, hd, hi]
  have href : refs.mapM (normalizeRefElem cfg) =
      Except.ok (refs.map (fun e => match e with
        | .lint n => n
        | .lstr s => (label2id? cfg.id2label (pyLowerStr s)).getD 0)) := by
    apply mapM_except_ok
    intro e he
    have h := hr e he
    cases e with
    | lint n => rfl
    | lstr s =>
      simp only [refLookupOk] at h
      cases hi : label2id? cfg.id2label (pyLowerStr s) with
      | none => rw [hi] at h; simp at h
      | some i => simp [normalizeRefElem, hi]
  simp only [compute_metrics, hstage, hpred, href]
  rfl

/-- C5, counterexample: a localized-spelling reference string is not mapped
through the localized-to-English mapping — the engine raises `KeyError` on it
(first conjunct), even though the claim's three-step chain would have
resolved it to id 0 (second conjunct). -/
theorem c5_counterexample :
    compute_metrics (Preds.labels [LabelElem.lstr "positiv"])
      [LabelElem.lstr "Positiv"] ⟨["pos"], [("pos", "positiv")]⟩ [⟨"acc"⟩]
      (fun _ _ _ => some (MetricVal.scalar 1)) =
      Except.error (PyErr.keyError "positiv") ∧
    label2id? ["pos"]
      ((dictLastGet? (invMap [("pos", "positiv")]) (pyLowerStr "Positiv")).getD "") =
      some 0 :=
  ⟨rfl, rfl⟩

/-- Witness for the amended C5: the external metric function observes exactly
the normalized prediction ids `[0, 1]` and reference ids `[0]`. -/
theorem c5_amended_witness :
    compute_metrics (Preds.labels [LabelElem.lstr "Positiv", LabelElem.lint 1])
      [LabelElem.lstr "POS"] ⟨["pos"], [("pos", "positiv")]⟩ [⟨"m"⟩]
      (fun _ p r => if p = [0, 1] ∧ r = [0] then some (MetricVal.scalar 7) else none) =
      Except.ok [("m", (7 : ℚ))] := by
  have h := c5_amended ⟨["pos"], [("pos", "positiv")]⟩ [⟨"m"⟩]
    (fun _ p r => if p = [0, 1] ∧ r = [0] then some (MetricVal.scalar 7) else none)
    [LabelElem.lstr "Positiv", LabelElem.lint 1] [LabelElem.lstr "POS"]
    (by decide) (by decide) (by decide)
  rw [h]
  rfl

/-- C8: the edit-distance resolver returns the candidate whose lower-cased
Levenshtein distance to the lower-cased decoded string is minimal, and among
equal distances the one occurring first in the configured label order (every
earlier candidate has strictly greater distance); determinism is inherent
since the resolver is a function of its inputs. -/
theorem c8_min_edit_distance (cfg : DatasetConfig) (s : String)
    (h : editCandidateLabels cfg ≠ []) :
    ∃ k, k < (editCandidateLabels cfg).length ∧
      get_closest_word_edit_labels [s] cfg =
        [(editCandidateLabels cfg).getD k ""] ∧
      (∀ j, j < (editCandidateLabels cfg).length →
        lev (pyLowerStr s).data
            (pyLowerStr ((editCandidateLabels cfg).getD k "")).data ≤
          lev (pyLowerStr s).data
            (pyLowerStr ((editCandidateLabels cfg).getD j "")).data) ∧
      ∀ j, j < k →
        lev (pyLowerStr s).data
            (pyLowerStr ((editCandidateLabels cfg).getD k "")).data <
          lev (pyLowerStr s).data
            (pyLowerStr ((editCandidateLabels cfg).getD j "")).data := by
  have hlen : (levDistances cfg s).length = (editCandidateLabels cfg).length :=
    List.length_map _ _
  have hdne : levDistances cfg s ≠ [] := by
    intro he
    apply h
    have := congrArg List.length he
    rw [hlen] at this
    exact List.length_eq_zero.mp this
  have hk : npArgmin (levDistances cfg s) < (editCandidateLabels cfg).length := by
    rw [← hlen]
    exact npArgmin_lt_length _ hdne
  have hmap : ∀ j, j < (editCandidateLabels cfg).length →
      (levDistances cfg s).getD j 0 =
        lev (pyLowerStr s).data
          (pyLowerStr ((editCandidateLabels cfg).getD j "")).data := by
    intro j hj
    exact getD_map_str _ _ j hj
  refine ⟨npArgmin (levDistances cfg s), hk, rfl, ?_, ?_⟩
  · intro j hj
    rw [← hmap _ hk, ← hmap j hj]
    exact npArgmin_le _ j (by rw [hlen]; exact hj)
  · intro j hj
    rw [← hmap _ hk, ← hmap j (Nat.lt_trans hj hk)]
    exact npArgmin_first _ j hj

/-- Witness for C8 at a concrete config and decoded string. -/
theorem c8_min_edit_distance_witness :
    ∃ k, k < (editCandidateLabels ⟨["POS", "NEG"],
        [("POS", "Positiv"), ("NEG", "Negativ")]⟩).length ∧
      get_closest_word_edit_labels ["posi"]
          ⟨["POS", "NEG"], [("POS", "Positiv"), ("NEG", "Negativ")]⟩ =
        [(editCandidateLabels ⟨["POS", "NEG"],
          [("POS", "Positiv"), ("NEG", "Negativ")]⟩).getD k ""] ∧
      (∀ j, j < (editCandidateLabels ⟨["POS", "NEG"],
          [("POS", "Positiv"), ("NEG", "Negativ")]⟩).length →
        lev (pyLowerStr "posi").data
            (pyLowerStr ((editCandidateLabels ⟨["POS", "NEG"],
              [("POS", "Positiv"), ("NEG", "Negativ")]⟩).getD k "")).data ≤
          lev (pyLowerStr "posi").data
            (pyLowerStr ((editCandidateLabels ⟨["POS", "NEG"],
              [("POS", "Positiv"), ("NEG", "Negativ")]⟩).getD j "")).data) ∧
      ∀ j, j < k →
        lev (pyLowerStr "posi").data
            (pyLowerStr ((editCandidateLabels ⟨["POS", "NEG"],
              [("POS", "Positiv"), ("NEG", "Negativ")]⟩).getD k "")).data <
          lev (pyLowerStr "posi").data
            (pyLowerStr ((editCandidateLabels ⟨["POS", "NEG"],
              [("POS", "Positiv"), ("NEG", "Negativ")]⟩).getD j "")).data :=
  c8_min_edit_distance ⟨["POS", "NEG"], [("POS", "Positiv"), ("NEG", "Negativ")]⟩
    "posi" (by decide)

end EuroEval
